import Mathlib

/-
Verification of the core algorithms of `viz/code/viz_runner.py`:
structural notebook model, dependency resolution, import deduplication,
savefig injection, snapshot injection, assembly, and failure
classification.  Python functions are shallowly embedded as Lean
functions over `String` / `List Char`; loops become fuel-based
recursions where the fuel is computed from the input and proved (or
shown by invariant) to be sufficient.
-/

namespace VizRunner

/-! ## Basic character/string utilities shared by the embeddings -/

/-- ASCII whitespace as recognised by Python's `str.strip` / `\s`
(unicode whitespace beyond ASCII is not modelled). -/
def isPySpace (c : Char) : Bool :=
  c = ' ' || c = '\t' || c = '\n' || c = '\r' || c = '\x0b' || c = '\x0c'

/-- The ASCII apostrophe character (escaped character literals for it
are avoided). -/
def apos : Char := Char.ofNat 39

/-- Python `str.strip()` on a char list: drop ASCII whitespace from both ends. -/
def pyStripChars (l : List Char) : List Char :=
  ((l.dropWhile isPySpace).reverse.dropWhile isPySpace).reverse

/-- Python `str.strip()`. -/
def pyStrip (s : String) : String := ⟨pyStripChars s.data⟩

/-- Python `str.rstrip()`. -/
def pyRStrip (s : String) : String := ⟨(s.data.reverse.dropWhile isPySpace).reverse⟩

/-- Substring relation at the `Prop` level. -/
def Substr (needle hay : String) : Prop := needle.data <:+: hay.data

instance (n h : String) : Decidable (Substr n h) := by
  unfold Substr; infer_instance

/-- Python `needle in hay` on strings (substring test). -/
def isSubstr (needle hay : String) : Bool := decide (Substr needle hay)

/-- Python `s.startswith(pre)`. -/
def pyStartsWith (s pre : String) : Bool := pre.data.isPrefixOf s.data

/-- Python `str.splitlines(keepends=True)` on a char list, modelling the
`\n` line terminator (the universal-newline variants `\r`, `\x0b`, ...
are not modelled). -/
def splitLinesKE : List Char → List (List Char)
  | [] => []
  | c :: cs =>
    if c = '\n' then [c] :: splitLinesKE cs
    else
      match splitLinesKE cs with
      | [] => [[c]]
      | l :: ls => (c :: l) :: ls

/-- Python `str.splitlines(keepends=True)` at the `String` level. -/
def pySplitlinesKE (s : String) : List String :=
  (splitLinesKE s.data).map String.mk

/-- Python `"".join(lines)`. -/
def joinStrings (ls : List String) : String := String.join ls

/-- Python `repr` of a list of strings, as produced by an f-string
`f"{target_vars}"` (e.g. `['a', 'b']`). -/
def pyReprItemsChars : List String → List Char
  | [] => []
  | [s] => apos :: (s.data ++ [apos])
  | s :: s' :: rest => apos :: (s.data ++ apos :: ',' :: ' ' :: pyReprItemsChars (s' :: rest))

/-- Python `repr` of a list of strings, e.g. `['a', 'b']`. -/
def pyStrListRepr (l : List String) : String :=
  ⟨'[' :: (pyReprItemsChars l ++ [']'])⟩

/-! ## Data model (§3 of the spec, `viz_runner.py` dataclasses) -/

/-- `MarimoCell`: one `@app.cell` of the notebook. -/
structure MarimoCell where
  name : String
  refs : List String
  defs : List String
  code : String
  start_line : Nat
  end_line : Nat
deriving Repr, DecidableEq, Inhabited

/-- `MarimoFunction`: one `@app.function` declaration. -/
structure MarimoFunction where
  name : String
  code : String
  start_line : Nat
  end_line : Nat
deriving Repr, DecidableEq, Inhabited

/-- `MarimoClass`: one class definition. -/
structure MarimoClass where
  name : String
  code : String
  start_line : Nat
  end_line : Nat
deriving Repr, DecidableEq, Inhabited

/-- `ParsedNotebook`: parsed structure of a marimo notebook. -/
structure ParsedNotebook where
  preamble : String
  setup_code : String
  functions : List MarimoFunction
  classes : List MarimoClass
  cells : List MarimoCell
  main_block : String
deriving Repr, DecidableEq, Inhabited

/-- `PreparedNotebook`: result of `prepare_notebook` (the filesystem
`cwd` field is omitted from the model). -/
structure PreparedNotebook where
  parsed : ParsedNotebook
  required_indices : List Nat
  required_functions : Finset String
  target_var : Option String
deriving DecidableEq

/-! ## Dependency resolver (`get_required_cells`, lines 754-808) -/

/-- Python `parsed.cells[idx]`.  The source indexes the list directly;
every index it uses is in range, so the model totalises with `default`. -/
def cellAt (cells : List MarimoCell) (idx : Nat) : MarimoCell :=
  (cells[idx]?).getD default

/-- The `var_to_cell` dict build:
`for i, cell in enumerate(parsed.cells): for var in cell.defs: var_to_cell[var] = i`
(later cells overwrite earlier ones: last writer wins). -/
def varToCellFrom (v : String) : List MarimoCell → Nat → Option Nat → Option Nat
  | [], _, acc => acc
  | c :: cs, i, acc => varToCellFrom v cs (i + 1) (if v ∈ c.defs then some i else acc)

/-- `var_to_cell[v]` lookup (`None` when `v` is written by no cell). -/
def var_to_cell (cells : List MarimoCell) (v : String) : Option Nat :=
  varToCellFrom v cells 0 none

/-- Total number of declared reads over all cells; bounds how many
variables one loop iteration can enqueue. -/
def refsTotal (cells : List MarimoCell) : Nat :=
  ((cells.map MarimoCell.refs).flatten).length

/-- Number of elements of `A` not yet visited (termination measure part). -/
def unvisitedCount (A visited : List String) : Nat :=
  (A.filter (fun v => !decide (v ∈ visited))).length

/-- The worklist loop of `get_required_cells`: pop a variable from the
end of the queue (`queue.pop()`), skip it if visited, otherwise record
its writer cell, enqueue that cell's unvisited reads, and record it as a
required function if it names an `@app.function`.  `fuel` bounds the
iteration count; `get_required_cells` supplies a provably sufficient
amount. -/
def resolveLoop (cells : List MarimoCell) (fns : List String) :
    Nat → List String → List String → Finset Nat → Finset String →
    Finset Nat × Finset String
  | 0, _, _, req, reqF => (req, reqF)
  | fuel + 1, queue, visited, req, reqF =>
    match queue.getLast? with
    | none => (req, reqF)
    | some var =>
      if var ∈ visited then
        resolveLoop cells fns fuel queue.dropLast visited req reqF
      else
        match var_to_cell cells var with
        | some idx =>
          resolveLoop cells fns fuel
            (queue.dropLast ++
              (cellAt cells idx).refs.filter (fun r => decide (r ∉ var :: visited)))
            (var :: visited) (insert idx req)
            (if var ∈ fns then insert var reqF else reqF)
        | none =>
          resolveLoop cells fns fuel queue.dropLast (var :: visited) req
            (if var ∈ fns then insert var reqF else reqF)

/-- `get_required_cells(parsed, target_vars)`: backward reachability from
the target variables, then one textual pass adding every
`@app.function` whose name occurs as a substring in a retained cell's
code.  Returns the cell indices sorted ascending and the set of
function names. -/
def get_required_cells (parsed : ParsedNotebook) (target_vars : List String) :
    List Nat × Finset String :=
  let function_names := parsed.functions.map MarimoFunction.name
  let A := target_vars ++ (parsed.cells.map MarimoCell.refs).flatten
  let fuel := A.length * (refsTotal parsed.cells + 1) + target_vars.length + 1
  let p := resolveLoop parsed.cells function_names fuel target_vars [] ∅ ∅
  let sortedIdx := p.1.sort (· ≤ ·)
  let reqFuncs := p.2 ∪ (function_names.filter
      (fun f => sortedIdx.any (fun idx => isSubstr f (cellAt parsed.cells idx).code))).toFinset
  (sortedIdx, reqFuncs)

/-- The error message of `prepare_notebook`:
`f"Could not find cells defining: {target_vars}"`. -/
def unresolvedMsg (target_vars : List String) : String :=
  "Could not find cells defining: " ++ pyStrListRepr target_vars

/-- `prepare_notebook`: resolve dependencies and package the result;
`(False, message)` failures become `Except.error message`.  The model
takes the already-parsed notebook (reading and parsing the file is
I/O). -/
def prepare_notebook (parsed : ParsedNotebook) (target_vars : List String) :
    Except String PreparedNotebook :=
  let rf := get_required_cells parsed target_vars
  if rf.1.isEmpty then
    Except.error (unresolvedMsg target_vars)
  else
    Except.ok ⟨parsed, rf.1, rf.2, target_vars.head?⟩

/-! ## Import deduplication
(`_extract_imported_names_from_line`, lines 723-751, and
`strip_imports_from_action_code`, lines 687-720) -/

/-- Python `\w` in the regexes, restricted to ASCII: letters, digits and
underscore. -/
def isWordChar (c : Char) : Bool := c.isAlphanum || c = '_'

/-- `\s+`: require at least one whitespace char, munch maximally. -/
def spaces1 (l : List Char) : Option (List Char) :=
  match l with
  | [] => none
  | c :: cs => if isPySpace c then some (cs.dropWhile isPySpace) else none

/-- `(\w+)`: require at least one word char, munch maximally;
returns the word and the remainder. -/
def takeWord1 (l : List Char) : Option (List Char × List Char) :=
  match l.takeWhile isWordChar with
  | [] => none
  | w => some (w, l.dropWhile isWordChar)

/-- The regex `^import\s+(\w+)(?:\s+as\s+(\w+))?$` of
`_extract_imported_names_from_line`, returning `[group(2) or group(1)]`.
Since `\s` and `\w` classes are disjoint from each other and from the
literals, the greedy match is maximal-munch and needs no backtracking. -/
def matchImportSimple (l : List Char) : Option (List String) :=
  if "import".data.isPrefixOf l then
    match spaces1 (l.drop 6) with
    | none => none
    | some r1 =>
      match takeWord1 r1 with
      | none => none
      | some (w, r2) =>
        if r2 = [] then some [⟨w⟩]
        else
          match spaces1 r2 with
          | none => none
          | some r3 =>
            if "as".data.isPrefixOf r3 then
              match spaces1 (r3.drop 2) with
              | none => none
              | some r4 =>
                match takeWord1 r4 with
                | none => none
                | some (w2, r5) => if r5 = [] then some [⟨w2⟩] else none
            else none
  else none

/-- The regex `^from\s+[\w.]+\s+import\s+(.+)$`: returns `group(1)`
(everything after the second `import`); the input line is already
stripped, so `$` is plain end-of-input. -/
def matchFromLine (l : List Char) : Option (List Char) :=
  if "from".data.isPrefixOf l then
    match spaces1 (l.drop 4) with
    | none => none
    | some r1 =>
      if r1.takeWhile (fun c => isWordChar c || c = '.') = [] then none
      else
        match spaces1 (r1.dropWhile (fun c => isWordChar c || c = '.')) with
        | none => none
        | some r3 =>
          if "import".data.isPrefixOf r3 then
            match spaces1 (r3.drop 6) with
            | none => none
            | some r4 => if r4 = [] then none else some r4
          else none
  else none

/-- Python `str.split(',')`. -/
def splitOnComma : List Char → List (List Char)
  | [] => [[]]
  | c :: cs =>
    if c = ',' then [] :: splitOnComma cs
    else
      match splitOnComma cs with
      | [] => [[c]]
      | p :: ps => (c :: p) :: ps

/-- Per-part handling of the from-import list: `part.strip()` then the
prefix regex `(\w+)(?:\s+as\s+(\w+))?`; a part with no leading word char
(e.g. `*`) yields nothing. -/
def importPartName (part : List Char) : Option String :=
  match takeWord1 (pyStripChars part) with
  | none => none
  | some (w, r) =>
    match spaces1 r with
    | none => some ⟨w⟩
    | some r1 =>
      if "as".data.isPrefixOf r1 then
        match spaces1 (r1.drop 2) with
        | none => some ⟨w⟩
        | some r2 =>
          match takeWord1 r2 with
          | none => some ⟨w⟩
          | some (w2, _) => some ⟨w2⟩
      else some ⟨w⟩

/-- `_extract_imported_names_from_line(import_line)`: the names that
one import statement would bind, or `[]` when neither regex matches. -/
def extract_imported_names_from_line (line_text : String) : List String :=
  let l := pyStripChars line_text.data
  match matchImportSimple l with
  | some names => names
  | none =>
    match matchFromLine l with
    | some rest => (splitOnComma rest).filterMap importPartName
    | none => []

/-- The per-line drop decision inside the loop of
`strip_imports_from_action_code`: an import line is skipped when all the
names it binds are already in the setup imports (`continue`), every
other line is kept. -/
def stripDropLine (setup_imports : List (String × String)) (line : String) : Bool :=
  let stripped := pyStrip line
  if pyStartsWith stripped "import " || pyStartsWith stripped "from " then
    let imported_names := extract_imported_names_from_line stripped
    let all_in_setup := imported_names.all (fun n => setup_imports.any (fun p => p.1 == n))
    all_in_setup && !imported_names.isEmpty
  else false

/-- `strip_imports_from_action_code(action_code, setup_imports)`: walk
the lines of the action code, dropping each import line whose bound
names are all already keys of `setup_imports` (a dict modelled as an
association list), and join the survivors. -/
def strip_imports_from_action_code (action_code : String)
    (setup_imports : List (String × String)) : String :=
  let lines := pySplitlinesKE action_code
  let result_lines := lines.foldl
    (fun acc line => if stripDropLine setup_imports line then acc else acc ++ [line]) []
  joinStrings result_lines

/-- The drop condition exactly as the specification words it: the line
(after stripping) is a top-level import statement, the set of names it
would bind is non-empty, and every one of those names is already a key
of the binding map. -/
def specImportDropped (setup_imports : List (String × String)) (line : String) : Bool :=
  (pyStartsWith (pyStrip line) "import " || pyStartsWith (pyStrip line) "from ") &&
  !(extract_imported_names_from_line (pyStrip line)).isEmpty &&
  (extract_imported_names_from_line (pyStrip line)).all
    (fun n => setup_imports.any (fun p => p.1 == n))

/-! ## Savefig injection (`inject_savefig`, lines 1276-1304) -/

/-- The literal `plt.show()` of the substitution pattern. -/
def pltShowChars : List Char := "plt.show()".data

/-- The literal `pyplot.show()` of the substitution pattern. -/
def pyplotShowChars : List Char := "pyplot.show()".data

/-- One attempt of the pattern `(\s*)(plt\.show\(\)|pyplot\.show\(\))`
at a line-start position.  The greedy `\s*` is maximal munch (both
alternatives start with a non-space char, so no backtracking can help);
note `\s` includes `\n`, so the captured indent may span blank lines.
Returns `(indent, showCall, rest)`. -/
def matchShowAt (cs : List Char) : Option (List Char × List Char × List Char) :=
  let indent := cs.takeWhile isPySpace
  let rest := cs.dropWhile isPySpace
  if pltShowChars.isPrefixOf rest then
    some (indent, pltShowChars, rest.drop pltShowChars.length)
  else if pyplotShowChars.isPrefixOf rest then
    some (indent, pyplotShowChars, rest.drop pyplotShowChars.length)
  else none

/-- Leftmost match of the show pattern (`re.MULTILINE`: `^` anchors at
the start of the text and after every `\n`).  Returns
`(pre, indent, showCall, rest)` with the input equal to
`pre ++ indent ++ showCall ++ rest`. -/
def findShowMatch : List Char → Bool → Option (List Char × List Char × List Char × List Char)
  | [], _ => none
  | c :: cs, atLineStart =>
    if atLineStart then
      match matchShowAt (c :: cs) with
      | some (i, sc, r) => some ([], i, sc, r)
      | none =>
        match findShowMatch cs (c = '\n') with
        | some (p, i, sc, r) => some (c :: p, i, sc, r)
        | none => none
    else
      match findShowMatch cs (c = '\n') with
      | some (p, i, sc, r) => some (c :: p, i, sc, r)
      | none => none

/-- The inserted statement
`plt.savefig('<png_path>', dpi=150, bbox_inches='tight')`. -/
def savefigLine (png_path : String) : String :=
  "plt.savefig('" ++ png_path ++ "', dpi=150, bbox_inches='tight')"

/-- `re.sub` of the show pattern: repeatedly find the leftmost match and
replace it by `indent ++ savefig ++ "\n" ++ indent ++ showCall`,
resuming the scan after the match (the char before the resume point is
`)`, so not at a line start).  Each match consumes at least one char, so
text-length fuel suffices. -/
def subShowAux (save : List Char) : Nat → List Char → Bool → List Char
  | 0, cs, _ => cs
  | fuel + 1, cs, atLineStart =>
    match findShowMatch cs atLineStart with
    | none => cs
    | some (pre, indent, sc, rest) =>
      pre ++ indent ++ save ++ ('\n' :: indent) ++ sc ++ subShowAux save fuel rest false

/-- `inject_savefig(script, png_path)`: insert the savefig statement on
the line before every `plt.show()`/`pyplot.show()` call; when no such
call exists, append it at the end if the script mentions matplotlib at
all, else return the script unmodified. -/
def inject_savefig (script : String) (png_path : String) : String :=
  let save := (savefigLine png_path).data
  let modified : String := ⟨subShowAux save script.data.length script.data true⟩
  if modified = script then
    if isSubstr "matplotlib" script || isSubstr "plt" script then
      pyRStrip script ++ "\n\n# Auto-injected by viz_runner\n" ++ savefigLine png_path ++ "\n"
    else script
  else modified

/-- Number of (possibly overlapping) occurrences of `needle`;
used to count injected savefig statements. -/
def countOcc (needle : List Char) : List Char → Nat
  | [] => 0
  | c :: cs => (if needle.isPrefixOf (c :: cs) then 1 else 0) + countOcc needle cs

/-- Concrete plotting script with exactly one blocking show call. -/
def exShowScript : String :=
  "import matplotlib.pyplot as plt\nplt.plot([1, 2, 3])\nplt.show()\n"

/-! ## Snapshot injection
(`inject_snapshot`, lines 811-857, and `_break_method_chain`,
lines 860-916) -/

/-- The regex search `\.\w+\(` at one position: a dot, one or more word
chars (maximal munch; the following `(` is not a word char, so greedy
matching needs no backtracking), then an opening paren. -/
def hasMethodCallAt (cs : List Char) : Bool :=
  match cs with
  | '.' :: rest =>
    !(rest.takeWhile isWordChar).isEmpty &&
      (match rest.dropWhile isWordChar with
       | '(' :: _ => true
       | _ => false)
  | _ => false

/-- `re.search(r"\.\w+\(", content)`: the pattern matches somewhere. -/
def hasMethodCall : List Char → Bool
  | [] => false
  | c :: cs => hasMethodCallAt (c :: cs) || hasMethodCall cs

/-- The injected snapshot-binding statement
`{indent}_viz_snapshot_{v} = {v}.copy() if hasattr({v}, 'copy') else {v}\n`. -/
def snapshotLine (indent : List Char) (target_var : String) : String :=
  ⟨indent⟩ ++ "_viz_snapshot_" ++ target_var ++ " = " ++ target_var
    ++ ".copy() if hasattr(" ++ target_var ++ ", 'copy') else " ++ target_var ++ "\n"

/-- Python `s.count(c)` for a single character. -/
def countChar (c : Char) (s : String) : Nat :=
  (s.data.filter (fun x => decide (x = c))).length

/-- Python `s.endswith(suffix)`. -/
def pyEndsWith (s suffix : String) : Bool := suffix.data.isSuffixOf s.data

/-- `"=" in line and "==" not in line`. -/
def lineHasAssign (s : String) : Bool :=
  s.data.contains '=' && !(isSubstr "==" s)

/-- The backward scan of `_break_method_chain`:
`for i in range(target_line_idx, -1, -1)`, stopping at the first line
with an `=` assignment. -/
def findChainStart (lines : List String) : Nat → Option Nat
  | 0 => if lineHasAssign (lines.getD 0 "") then some 0 else none
  | i + 1 =>
    if lineHasAssign (lines.getD (i + 1) "") then some (i + 1)
    else findChainStart lines i

/-- The forward paren-balance scan of `_break_method_chain`: starting at
`chain_start` with depth 0, add each line's `(`/`)` balance and stop at
the first line where the depth is `≤ 0` and the line ends the chain;
`tidx` is returned when the loop runs out (no `break`). -/
def findChainEndAux (lines : List String) (tidx : Nat) : Nat → Nat → Int → Nat
  | 0, _, _ => tidx
  | fuel + 1, i, depth =>
    if i < lines.length then
      let line := lines.getD i ""
      let depth' := depth + (countChar '(' line : Int) - (countChar ')' line : Int)
      if depth' ≤ 0 && (pyEndsWith (pyStrip line) ")" || isSubstr "return" line) then i
      else findChainEndAux lines tidx fuel (i + 1) depth'
    else tidx

/-- The final scan of `_break_method_chain`: the first line at or after
`chain_end` containing `return`. -/
def findReturnFrom (lines : List String) : Nat → Nat → Option Nat
  | 0, _ => none
  | fuel + 1, i =>
    if i < lines.length then
      if isSubstr "return" (lines.getD i "") then some i
      else findReturnFrom lines fuel (i + 1)
    else none

/-- `_break_method_chain(lines, target_line_idx, target_var)`: find the
assignment that starts the chain, the chain's syntactic end, and insert
the snapshot line right before the first `return` after it. -/
def break_method_chain (lines : List String) (target_line_idx : Nat)
    (target_var : String) : String :=
  match findChainStart lines target_line_idx with
  | none => joinStrings lines
  | some chain_start =>
    let indent := (lines.getD target_line_idx "").data.takeWhile isPySpace
    let chain_end := findChainEndAux lines target_line_idx lines.length chain_start 0
    match findReturnFrom lines lines.length chain_end with
    | none => joinStrings lines
    | some i => joinStrings (lines.insertIdx i (snapshotLine indent target_var))

/-- `inject_snapshot(cell_code, target_var, target_line, cell_start_line)`:
no-op when the (file-relative, 1-indexed) target line falls outside the
cell's span; otherwise either break a method chain or insert the
snapshot directly after the target line, at its indentation. -/
def inject_snapshot (cell_code : String) (target_var : String)
    (target_line : Int) (cell_start_line : Int) : String :=
  let lines := pySplitlinesKE cell_code
  let relative_line : Int := target_line - cell_start_line
  if relative_line < 0 ∨ relative_line ≥ (lines.length : Int) then
    cell_code
  else
    let rel := relative_line.toNat
    let target_content := lines.getD rel ""
    if isSubstr ".pipe(" target_content || hasMethodCall target_content.data then
      break_method_chain lines rel target_var
    else
      let indent := (lines.getD rel "").data.takeWhile isPySpace
      joinStrings (lines.insertIdx (rel + 1) (snapshotLine indent target_var))

/-- Concrete three-line cell code used by the C7 witness. -/
def exCellCode : String := "@app.cell\ndef f(x):\n    return (y,)\n"

/-! ## Structural parser: `_parse_cell` (lines 567-590) and
`_extract_node_source` (lines 550-564) -/

/-- Fragment of Python's expression AST relevant to `_parse_cell`:
`ast.Name`, `ast.Tuple`, anything else. -/
inductive PyExpr where
  | name (id : String)
  | tuple (elts : List PyExpr)
  | other
deriving Repr

/-- Fragment of Python's statement AST: `ast.Return` (with optional
value) and any other statement carrying its nested statement blocks.
`Return` can only occur in statement position, so `ast.walk`'s visits to
expression nodes yield no further `Return`s and are omitted. -/
inductive PyStmt where
  | ret (value : Option PyExpr)
  | other (body : List PyStmt)
deriving Repr

mutual

/-- Number of statement nodes in one statement (walk fuel). -/
def pyStmtSize : PyStmt → Nat
  | .ret _ => 1
  | .other body => 1 + pyStmtsSize body

/-- Number of statement nodes in a block. -/
def pyStmtsSize : List PyStmt → Nat
  | [] => 0
  | s :: ss => pyStmtSize s + pyStmtsSize ss

end

/-- The nested statement blocks `ast.walk` descends into. -/
def stmtChildren : PyStmt → List PyStmt
  | .ret _ => []
  | .other body => body

/-- `ast.walk`: breadth-first traversal (pop the queue front, emit it,
enqueue its children at the back).  With fuel equal to the total node
count the queue is exhausted exactly. -/
def walkStmts : Nat → List PyStmt → List PyStmt
  | 0, _ => []
  | fuel + 1, q =>
    match q with
    | [] => []
    | s :: rest => s :: walkStmts fuel (rest ++ stmtChildren s)

/-- The names collected from one statement:
`if isinstance(stmt, ast.Return) and stmt.value:
   if isinstance(stmt.value, ast.Tuple):
     for elt in stmt.value.elts: if isinstance(elt, ast.Name): ...` -/
def tupleReturnNames : PyStmt → List String
  | .ret (some (.tuple elts)) =>
    elts.filterMap (fun e =>
      match e with
      | .name id => some id
      | _ => none)
  | _ => []

/-- Whether a statement is a tuple-valued `return`. -/
def isTupleReturn : PyStmt → Bool
  | .ret (some (.tuple _)) => true
  | _ => false

/-- The fields of an `ast.FunctionDef` node used by `_parse_cell`. -/
structure PyFunctionDef where
  name : String
  args : List String
  body : List PyStmt
  lineno : Nat
  decorator_linenos : List Nat
  end_lineno : Option Nat

/-- `_extract_node_source(node, source_lines)`: start line is the
minimum of the node's and its decorators' line numbers; end line is
`node.end_lineno or node.lineno` (Python truthiness: `0` also falls
back); the code is the 1-indexed slice `source_lines[start-1:end]`. -/
def _extract_node_source (lineno : Nat) (decorator_linenos : List Nat)
    (end_lineno : Option Nat) (source_lines : List String) : String × Nat × Nat :=
  let start_line := decorator_linenos.foldl min lineno
  let end_line :=
    match end_lineno with
    | some e => if e ≠ 0 then e else lineno
    | none => lineno
  let code := joinStrings ((source_lines.drop (start_line - 1)).take (end_line - (start_line - 1)))
  (code, start_line, end_line)

/-- `_parse_cell(node, source_lines)`: refs are the parameter names
minus the wildcard `_`; defs are the `ast.Name` elements of EVERY
tuple-valued `return` found by `ast.walk`, in walk order. -/
def _parse_cell (node : PyFunctionDef) (source_lines : List String) : MarimoCell :=
  let refs := node.args.filter (fun a => decide (a ≠ "_"))
  let defs := (walkStmts (pyStmtsSize node.body) node.body).flatMap tupleReturnNames
  let ens := _extract_node_source node.lineno node.decorator_linenos node.end_lineno source_lines
  { name := node.name, refs := refs, defs := defs
    code := ens.1, start_line := ens.2.1, end_line := ens.2.2 }

/-- The writes set as the claim words it: the names from the FIRST
tuple-valued return found in the walk; later tuple returns ignored. -/
def specFirstTupleReturnNames (body : List PyStmt) : List String :=
  match (walkStmts (pyStmtsSize body) body).find? isTupleReturn with
  | some s => tupleReturnNames s
  | none => []

/-- `ast.walk` reachability: a statement and, transitively, the
statements of its nested blocks. -/
inductive Reaches : PyStmt → PyStmt → Prop
  | refl (s) : Reaches s s
  | step {s t u} : t ∈ stmtChildren s → Reaches t u → Reaches s u

/-- Counterexample cell for C6: a body with two top-level tuple-valued
returns, `return (a,)` then `return (b,)`. -/
def cexCellNode : PyFunctionDef :=
  { name := "two_returns", args := ["_"]
    body := [.ret (some (.tuple [.name "a"])), .ret (some (.tuple [.name "b"]))]
    lineno := 2, decorator_linenos := [1], end_lineno := some 5 }

/-! ## Assembler (`assemble_pruned_notebook`, lines 919-1016,
`extract_setup_imports`, lines 631-663, `_indent_code`, lines 1019-1028) -/

/-- Python truthiness of `target_var` (`None` and `""` are falsy). -/
def optStrTruthy : Option String → Bool
  | some s => s ≠ ""
  | none => false

/-- Python truthiness of `target_line` (`None` and `0` are falsy). -/
def optIntTruthy : Option Int → Bool
  | some i => i ≠ 0
  | none => false

/-- `extract_setup_imports(setup_code)`: maps each name bound by a
top-level import statement of the setup block to its statement text.
The `ast.parse`+walk of the source is modelled on the import-statement
sublanguage — each line parsed as an import statement contributes its
bound names — which agrees with the AST path (and with the regex
fallback `_extract_imports_regex`) on setup blocks made of plain
top-level import statements, the shape `app.setup` blocks take. -/
def extract_setup_imports (setup_code : String) : List (String × String) :=
  (pySplitlinesKE setup_code).flatMap (fun line =>
    let stripped := pyStrip line
    (extract_imported_names_from_line stripped).map (fun n => (n, stripped)))

/-- `_indent_code(code, indent)`: prefix each non-blank line. -/
def _indent_code (code : String) (indent : String) : String :=
  joinStrings ((pySplitlinesKE code).map (fun line =>
    if pyStrip line ≠ "" then indent ++ line else line))

/-- Part 2 of the assembly: the re-indented `with app.setup:` block
(empty when there is no setup code). -/
def asmSetupPart (setup_code : String) : String :=
  if setup_code ≠ "" then
    "\nwith app.setup:\n" ++
      joinStrings ((pySplitlinesKE setup_code).map (fun line =>
        if pyStrip line ≠ "" then
          (if !(pyStartsWith line "    ") then "    " ++ line else line)
        else line)) ++ "\n"
  else ""

/-- Part 3: every class, unconditionally. -/
def asmClassesPart (classes : List MarimoClass) : String :=
  joinStrings (classes.map (fun cls => "\n" ++ cls.code ++ "\n"))

/-- Part 4: the required `@app.function`s, in source order. -/
def asmFunctionsPart (functions : List MarimoFunction) (required_functions : Finset String) :
    String :=
  joinStrings ((functions.filter
    (fun f => decide (f.name ∈ required_functions))).map (fun f => "\n" ++ f.code ++ "\n"))

/-- Part 5: the required cells in the given index order, applying
snapshot injection to a cell that defines the (truthy) target variable
and whose line span covers the (truthy) target line. -/
def asmCellsPart (cells : List MarimoCell) (required_indices : List Nat)
    (target_var : Option String) (target_line : Option Int) : String :=
  joinStrings (required_indices.map (fun idx =>
    let cell := cellAt cells idx
    let cell_code :=
      if optStrTruthy target_var && optIntTruthy target_line &&
          decide (target_var.getD "" ∈ cell.defs) &&
          decide ((cell.start_line : Int) ≤ target_line.getD 0) &&
          decide (target_line.getD 0 ≤ (cell.end_line : Int)) then
        inject_snapshot cell.code (target_var.getD "") (target_line.getD 0)
          (cell.start_line : Int)
      else cell.code
    "\n" ++ cell_code ++ "\n"))

/-- Part 6: the synthesized `@app.cell` wrapping the action code,
parameterized on the snapshot variable, the target variable, or `_`. -/
def asmPlotCell (plot_code : String) (target_var : Option String)
    (target_line : Option Int) : String :=
  let refs :=
    if optStrTruthy target_var && optIntTruthy target_line then
      "_viz_snapshot_" ++ target_var.getD ""
    else if optStrTruthy target_var then target_var.getD ""
    else "_"
  "\n@app.cell\ndef _(" ++ refs ++ "):\n    # Viz skill injected plotting code\n"
    ++ _indent_code plot_code "    " ++ "\n    return\n"

/-- Part 7: the original main block, or the default one. -/
def asmMainPart (main_block : String) : String :=
  if main_block ≠ "" then "\n" ++ main_block
  else "\nif __name__ == \"__main__\":\n    app.run()\n"

/-- `assemble_pruned_notebook(parsed, required_indices,
required_functions, plot_code, target_var, target_line)`: strip
setup-duplicated imports from the action code, then concatenate
preamble, setup block, classes, required functions, required cells,
the synthesized plotting cell and the main block. -/
def assemble_pruned_notebook (parsed : ParsedNotebook) (required_indices : List Nat)
    (required_functions : Finset String) (plot_code : String)
    (target_var : Option String) (target_line : Option Int) : String :=
  let plot_code :=
    if parsed.setup_code ≠ "" then
      strip_imports_from_action_code plot_code (extract_setup_imports parsed.setup_code)
    else plot_code
  parsed.preamble
    ++ asmSetupPart parsed.setup_code
    ++ asmClassesPart parsed.classes
    ++ asmFunctionsPart parsed.functions required_functions
    ++ asmCellsPart parsed.cells required_indices target_var target_line
    ++ asmPlotCell plot_code target_var target_line
    ++ asmMainPart parsed.main_block

/-- Concrete four-cell notebook with pairwise distinct cell codes. -/
def cexAsmNB : ParsedNotebook :=
  { preamble := "import marimo\napp = marimo.App()\n"
    setup_code := ""
    functions := []
    classes := []
    cells :=
      [ { name := "c0", refs := [], defs := ["a0"]
          code := "@app.cell\ndef c0():\n    a0 = 0\n    return (a0,)\n"
          start_line := 4, end_line := 7 }
      , { name := "c1", refs := ["a0"], defs := ["a1"]
          code := "@app.cell\ndef c1(a0):\n    a1 = a0 + 1\n    return (a1,)\n"
          start_line := 9, end_line := 12 }
      , { name := "c2", refs := ["a0"], defs := ["a2"]
          code := "@app.cell\ndef c2(a0):\n    a2 = a0 * 2\n    return (a2,)\n"
          start_line := 14, end_line := 17 }
      , { name := "c3", refs := ["a2"], defs := ["a3"]
          code := "@app.cell\ndef c3(a2):\n    a3 = a2 - 5\n    return (a3,)\n"
          start_line := 19, end_line := 22 } ]
    main_block := "" }

/-- The assembled output for the concrete notebook with retained cells
`[0, 2]`. -/
def asmOut : String :=
  assemble_pruned_notebook cexAsmNB [0, 2] ∅ "print(a2)\n" none none

/-! ## Failure classification (`poll_for_file`, lines 1316-1349, and
`format_module_error`, lines 1352-1379) -/

/-- One polling tick's observations of the launched process: whether the
target file exists at this tick's file check, and — at this tick's exit
check — `none` while still running or the decoded stderr once exited. -/
structure ProcObs where
  fileExists : Bool
  exited : Option String

/-- The `PollResult` dataclass (the `process` handle is omitted from the
model). -/
structure PollResult where
  success : Bool
  message : String
deriving Repr, DecidableEq

/-- The literal of the module-error regex. -/
def moduleSigChars : List Char := "ModuleNotFoundError: No module named ".data

/-- The quote character class of the module-error regex. -/
def isQuote (c : Char) : Bool := c = apos || c = '"'

/-- The tail of the module-error regex at the position right after the
literal: an optional quote (greedy, given back only when no non-quote
char follows it, in which case the one-or-more-non-quote group must
start at the quote itself and fails), then the captured maximal run of
non-quote chars; the trailing optional quote never affects the group. -/
def matchModuleTail (rest : List Char) : Option String :=
  match rest with
  | [] => none
  | c :: cs =>
    if isQuote c then
      match cs.takeWhile (fun x => !isQuote x) with
      | [] => none
      | w => some ⟨w⟩
    else some ⟨(c :: cs).takeWhile (fun x => !isQuote x)⟩

/-- The `re.search` of the ModuleNotFoundError pattern over stderr:
scan left to right; on a literal hit whose tail fails, resume the scan
one character further (as the regex engine does). -/
def findModuleName : List Char → Option String
  | [] => none
  | c :: cs =>
    if moduleSigChars.isPrefixOf (c :: cs) then
      match matchModuleTail ((c :: cs).drop moduleSigChars.length) with
      | some m => some m
      | none => findModuleName cs
    else findModuleName cs

/-- Python format `{s:<w}`: left-justify by padding with spaces (never
truncates). -/
def padRight (s : String) (width : Nat) : String :=
  s ++ ⟨List.replicate (width - s.data.length) ' '⟩

/-- The 78-char horizontal rule of the box borders. -/
def boxRule : String := ⟨List.replicate 78 '═'⟩

/-- One full box line: `║` + content padded to width 78 + `║` + newline. -/
def boxLine (content : String) : String := "║" ++ padRight content 78 ++ "║\n"

/-- Opening of the boxed missing-module message, up to the module name. -/
def msgHead : String := "\n╔" ++ boxRule ++ "╗\n║  MISSING MODULE: "

/-- Middle of the boxed message, between module name and command. -/
def msgMid : String :=
  " ║\n╠" ++ boxRule ++ "╣\n"
    ++ boxLine "  The viz skill's Python environment is missing required packages."
    ++ boxLine ""
    ++ boxLine "  To fix this, either:"
    ++ boxLine ""
    ++ boxLine "  1. Restart Claude Code with the correct Python environment activated:"
    ++ boxLine "     $ source /path/to/your/venv/bin/activate && claude"
    ++ boxLine ""
    ++ boxLine "  2. Or configure viz_runner.py to use a different Python command:"
    ++ boxLine "     Set VIZ_PYTHON_CMD environment variable, e.g.:"
    ++ boxLine "     $ export VIZ_PYTHON_CMD=\"uv run python\""
    ++ boxLine ""
    ++ "║  Python command: "

/-- Closing of the boxed message. -/
def msgTail : String := " ║\n╚" ++ boxRule ++ "╝\n"

/-- The boxed message built by `format_module_error`'s f-string, with
`cmd_str = " ".join(python_cmd)`. -/
def missingModuleMsg (module : String) (python_cmd : List String) : String :=
  msgHead ++ padRight module 59 ++ msgMid
    ++ padRight (String.intercalate " " python_cmd) 57 ++ msgTail

/-- `format_module_error(stderr, python_cmd)`: the boxed remediation
message when the ModuleNotFoundError signature is found, else `None`. -/
def format_module_error (stderr : String) (python_cmd : List String) : Option String :=
  match findModuleName stderr.data with
  | some module => some (missingModuleMsg module python_cmd)
  | none => none

/-- The polling loop of `poll_for_file`, one iteration per tick `k`:
check the file, then (after the sleep) check the process; on exit,
classify stderr via `format_module_error`.  `fuel` counts the remaining
iterations of `while waited < max_wait` (the float accumulation
`waited += poll_interval` is modelled as whole ticks). -/
def pollLoop (obs : Nat → ProcObs) (python_cmd : List String) : Nat → Nat → PollResult
  | 0, _ =>
    { success := false, message := "Timeout waiting for file (process may still be running)" }
  | fuel + 1, k =>
    if (obs k).fileExists then
      { success := true, message := "File created" }
    else
      match (obs k).exited with
      | some stderr =>
        match format_module_error stderr python_cmd with
        | some m => { success := false, message := m }
        | none => { success := false, message := "Script failed: " ++ stderr }
      | none => pollLoop obs python_cmd fuel (k + 1)

/-- `poll_for_file(process, target_file, python_cmd, max_wait,
poll_interval)` over tick observations, with
`maxTicks = max_wait / poll_interval`. -/
def poll_for_file (obs : Nat → ProcObs) (maxTicks : Nat) (python_cmd : List String) :
    PollResult :=
  pollLoop obs python_cmd maxTicks 0

/-- Well-formed line lists: every line is non-empty with `\n` at most as
its final character, and every line except possibly the last ends with
`\n`.  `splitLinesKE` produces exactly such lists. -/
def LinesWF : List (List Char) → Prop
  | [] => True
  | l :: ls => (l ≠ [] ∧ ∀ c ∈ l.dropLast, c ≠ '\n') ∧
      (ls = [] ∨ l.getLast? = some '\n') ∧ LinesWF ls

/-- Example notebook used by witnesses: a two-cell chain
`load() -> df`, `clean(df) -> clean_df`, plus one `@app.function`. -/
def exNB : ParsedNotebook :=
  { preamble := "import marimo\napp = marimo.App()\n"
    setup_code := ""
    functions := [⟨"helper", "@app.function\ndef helper(x):\n    return x\n", 5, 8⟩]
    classes := []
    cells :=
      [ { name := "load", refs := [], defs := ["df"]
          code := "@app.cell\ndef load():\n    df = get()\n    return (df,)\n"
          start_line := 10, end_line := 13 }
      , { name := "clean", refs := ["df"], defs := ["clean_df"]
          code := "@app.cell\ndef clean(df):\n    clean_df = helper(df)\n    return (clean_df,)\n"
          start_line := 15, end_line := 18 } ]
    main_block := "" }

/-! ## Lemmas and theorems -/

lemma varToCellFrom_bound {v : String} :
    ∀ (cs : List MarimoCell) (i : Nat) (acc : Option Nat) (n : Nat),
      i + cs.length ≤ n → (∀ j, acc = some j → j < n) →
      ∀ j, varToCellFrom v cs i acc = some j → j < n := by
  intro cs
  induction cs with
  | nil =>
    intro i acc n _ hacc j h
    exact hacc j (by simpa [varToCellFrom] using h)
  | cons c cs ih =>
    intro i acc n hn hacc j h
    simp only [varToCellFrom] at h
    refine ih (i + 1) _ n (by simp only [List.length_cons] at hn; omega) ?_ j h
    intro j' hj'
    by_cases hd : v ∈ c.defs
    · rw [if_pos hd] at hj'
      cases hj'
      simp only [List.length_cons] at hn
      omega
    · rw [if_neg hd] at hj'
      exact hacc j' hj'

lemma var_to_cell_lt {cells : List MarimoCell} {v : String} {j : Nat}
    (h : var_to_cell cells v = some j) : j < cells.length :=
  varToCellFrom_bound cells 0 none cells.length (by omega)
    (fun j hj => by simp at hj) j h

lemma queue_eq_dropLast_append {α : Type _} :
    ∀ {l : List α} {x : α}, l.getLast? = some x → l = l.dropLast ++ [x] := by
  intro l
  induction l with
  | nil => intro x h; simp at h
  | cons a as ih =>
    intro x h
    cases as with
    | nil =>
      simp only [List.getLast?_singleton, Option.some.injEq] at h
      subst h
      rfl
    | cons b bs =>
      rw [List.getLast?_cons_cons] at h
      rw [List.dropLast_cons₂, List.cons_append]
      exact congrArg (a :: ·) (ih h)

lemma unvisitedCount_cons_lt {A visited : List String} {v : String}
    (hvA : v ∈ A) (hv : v ∉ visited) :
    unvisitedCount A (v :: visited) < unvisitedCount A visited := by
  unfold unvisitedCount
  have hsub : List.Sublist (A.filter (fun a => !decide (a ∈ v :: visited)))
      (A.filter (fun a => !decide (a ∈ visited))) := by
    refine List.monotone_filter_right A ?_
    intro a ha
    simp only [Bool.not_eq_true', decide_eq_false_iff_not] at ha ⊢
    exact fun hmem => ha (List.mem_cons_of_mem _ hmem)
  have hvOld : v ∈ A.filter (fun a => !decide (a ∈ visited)) :=
    List.mem_filter.mpr ⟨hvA, by simpa using hv⟩
  have hvNew : v ∉ A.filter (fun a => !decide (a ∈ v :: visited)) := by
    intro h
    have := (List.mem_filter.mp h).2
    simp at this
  refine Nat.lt_of_le_of_ne hsub.length_le ?_
  intro heq
  rw [← hsub.eq_of_length heq] at hvOld
  exact hvNew hvOld

lemma length_le_length_flatten {α : Type _} {l : List α} {L : List (List α)}
    (h : l ∈ L) : l.length ≤ L.flatten.length := by
  induction L with
  | nil => simp at h
  | cons x xs ih =>
    rcases List.mem_cons.mp h with h | h
    · subst h
      simp only [List.flatten_cons, List.length_append]
      omega
    · have := ih h
      simp only [List.flatten_cons, List.length_append]
      omega

lemma refs_length_le_refsTotal (cells : List MarimoCell) (idx : Nat) :
    (cellAt cells idx).refs.length ≤ refsTotal cells := by
  unfold cellAt refsTotal
  by_cases h : idx < cells.length
  · rw [List.getElem?_eq_getElem h]
    simp only [Option.getD_some]
    exact length_le_length_flatten (List.mem_map_of_mem _ (List.getElem_mem h))
  · rw [List.getElem?_eq_none (by omega)]
    exact Nat.zero_le _

lemma ref_mem_flatten {cells : List MarimoCell} {idx : Nat} {r : String}
    (hidx : idx < cells.length) (hr : r ∈ (cellAt cells idx).refs) :
    r ∈ (cells.map MarimoCell.refs).flatten := by
  rw [List.mem_flatten]
  refine ⟨(cellAt cells idx).refs, ?_, hr⟩
  unfold cellAt
  rw [List.getElem?_eq_getElem hidx]
  simp only [Option.getD_some]
  exact List.mem_map_of_mem _ (List.getElem_mem hidx)

/-- Backward-reachability postcondition of the worklist loop: with enough
fuel, every writer cell of a target is retained, and the retained set is
closed under following each retained cell's reads to their writers. -/
lemma resolveLoop_post (cells : List MarimoCell) (fns : List String)
    (targets A : List String)
    (hA : ∀ idx, idx < cells.length → ∀ r ∈ (cellAt cells idx).refs, r ∈ A) :
    ∀ (fuel : Nat) (queue visited : List String) (req : Finset Nat) (reqF : Finset String),
      (∀ v ∈ queue, v ∈ A) →
      unvisitedCount A visited * (refsTotal cells + 1) + queue.length < fuel →
      (∀ t ∈ targets, t ∈ visited ∨ t ∈ queue) →
      (∀ v ∈ visited, ∀ i, var_to_cell cells v = some i → i ∈ req) →
      (∀ i ∈ req, ∀ r ∈ (cellAt cells i).refs, r ∈ visited ∨ r ∈ queue) →
      (∀ t ∈ targets, ∀ i, var_to_cell cells t = some i →
          i ∈ (resolveLoop cells fns fuel queue visited req reqF).1) ∧
      (∀ i ∈ (resolveLoop cells fns fuel queue visited req reqF).1,
          ∀ r ∈ (cellAt cells i).refs, ∀ j, var_to_cell cells r = some j →
            j ∈ (resolveLoop cells fns fuel queue visited req reqF).1) := by
  intro fuel
  induction fuel with
  | zero => intro queue visited req reqF _ hfuel _ _ _; omega
  | succ fuel ih =>
    intro queue visited req reqF hqA hfuel h0 h1 h2
    rcases hq : queue.getLast? with _ | var
    · have hqnil : queue = [] := List.getLast?_eq_none_iff.mp hq
      subst hqnil
      simp only [resolveLoop]
      constructor
      · intro t ht i hw
        rcases h0 t ht with h | h
        · exact h1 t h i hw
        · simp at h
      · intro i hi r hr j hw
        rcases h2 i hi r hr with h | h
        · exact h1 r h j hw
        · simp at h
    · obtain ⟨rest, rfl⟩ : ∃ rest, queue = rest ++ [var] :=
        ⟨queue.dropLast, queue_eq_dropLast_append hq⟩
      have hdrop : (rest ++ [var]).dropLast = rest := by
        simp
      have hvarA : var ∈ A := hqA var (by simp)
      have hrestA : ∀ v ∈ rest, v ∈ A := fun v hv => hqA v (List.mem_append_left _ hv)
      have hlen : (rest ++ [var]).length = rest.length + 1 := by simp
      simp only [resolveLoop, hq, hdrop]
      by_cases hv : var ∈ visited
      · simp only [if_pos hv]
        refine ih rest visited req reqF hrestA (by rw [hlen] at hfuel; omega) ?_ h1 ?_
        · intro t ht
          rcases h0 t ht with h | h
          · exact Or.inl h
          · rcases List.mem_append.mp h with h | h
            · exact Or.inr h
            · simp only [List.mem_singleton] at h
              subst h
              exact Or.inl hv
        · intro i hi r hr
          rcases h2 i hi r hr with h | h
          · exact Or.inl h
          · rcases List.mem_append.mp h with h | h
            · exact Or.inr h
            · simp only [List.mem_singleton] at h
              subst h
              exact Or.inl hv
      · simp only [if_neg hv]
        have hK : unvisitedCount A (var :: visited) + 1 ≤ unvisitedCount A visited :=
          unvisitedCount_cons_lt hvarA hv
        have hKmul : unvisitedCount A (var :: visited) * (refsTotal cells + 1)
            + (refsTotal cells + 1) ≤ unvisitedCount A visited * (refsTotal cells + 1) := by
          calc unvisitedCount A (var :: visited) * (refsTotal cells + 1) + (refsTotal cells + 1)
              = (unvisitedCount A (var :: visited) + 1) * (refsTotal cells + 1) := by ring
            _ ≤ unvisitedCount A visited * (refsTotal cells + 1) :=
              Nat.mul_le_mul_right _ hK
        rcases hw : var_to_cell cells var with _ | idx
        · simp only
          refine ih rest (var :: visited) req _ hrestA ?_ ?_ ?_ ?_
          · rw [hlen] at hfuel
            omega
          · intro t ht
            rcases h0 t ht with h | h
            · exact Or.inl (List.mem_cons_of_mem _ h)
            · rcases List.mem_append.mp h with h | h
              · exact Or.inr h
              · simp only [List.mem_singleton] at h
                subst h
                exact Or.inl (List.mem_cons_self _ _)
          · intro v hvm i hwi
            rcases List.mem_cons.mp hvm with h | h
            · subst h
              rw [hw] at hwi
              cases hwi
            · exact h1 v h i hwi
          · intro i hi r hr
            rcases h2 i hi r hr with h | h
            · exact Or.inl (List.mem_cons_of_mem _ h)
            · rcases List.mem_append.mp h with h | h
              · exact Or.inr h
              · simp only [List.mem_singleton] at h
                subst h
                exact Or.inl (List.mem_cons_self _ _)
        · simp only
          have hidx : idx < cells.length := var_to_cell_lt hw
          have hqlen' : (rest ++
              (cellAt cells idx).refs.filter (fun r => decide (r ∉ var :: visited))).length
              ≤ rest.length + refsTotal cells := by
            rw [List.length_append]
            have := List.length_filter_le (fun r => decide (r ∉ var :: visited))
              (cellAt cells idx).refs
            have := refs_length_le_refsTotal cells idx
            omega
          refine ih _ (var :: visited) (insert idx req) _ ?_ ?_ ?_ ?_ ?_
          · intro v hvm
            rcases List.mem_append.mp hvm with h | h
            · exact hrestA v h
            · exact hA idx hidx v (List.mem_of_mem_filter h)
          · rw [hlen] at hfuel
            omega
          · intro t ht
            rcases h0 t ht with h | h
            · exact Or.inl (List.mem_cons_of_mem _ h)
            · rcases List.mem_append.mp h with h | h
              · exact Or.inr (List.mem_append_left _ h)
              · simp only [List.mem_singleton] at h
                subst h
                exact Or.inl (List.mem_cons_self _ _)
          · intro v hvm i hwi
            rcases List.mem_cons.mp hvm with h | h
            · subst h
              rw [hw] at hwi
              cases hwi
              exact Finset.mem_insert_self _ _
            · exact Finset.mem_insert_of_mem (h1 v h i hwi)
          · intro i hi r hr
            rcases Finset.mem_insert.mp hi with h | h
            · subst h
              by_cases hrv : r ∈ var :: visited
              · exact Or.inl hrv
              · refine Or.inr (List.mem_append_right _ ?_)
                exact List.mem_filter.mpr ⟨hr, by simpa using hrv⟩
            · rcases h2 i h r hr with h' | h'
              · exact Or.inl (List.mem_cons_of_mem _ h')
              · rcases List.mem_append.mp h' with h' | h'
                · exact Or.inr (List.mem_append_left _ h')
                · simp only [List.mem_singleton] at h'
                  subst h'
                  exact Or.inl (List.mem_cons_self _ _)

/-- Well-formedness is preserved by the loop for any amount of fuel. -/
lemma resolveLoop_wf (cells : List MarimoCell) (fns : List String) :
    ∀ (fuel : Nat) (queue visited : List String) (req : Finset Nat) (reqF : Finset String),
      (∀ i ∈ req, i < cells.length) → (∀ f ∈ reqF, f ∈ fns) →
      (∀ i ∈ (resolveLoop cells fns fuel queue visited req reqF).1, i < cells.length) ∧
      (∀ f ∈ (resolveLoop cells fns fuel queue visited req reqF).2, f ∈ fns) := by
  intro fuel
  induction fuel with
  | zero => intro queue visited req reqF h1 h2; exact ⟨h1, h2⟩
  | succ fuel ih =>
    intro queue visited req reqF h1 h2
    rcases hq : queue.getLast? with _ | var
    · simp only [resolveLoop, hq]
      exact ⟨h1, h2⟩
    · simp only [resolveLoop, hq]
      by_cases hv : var ∈ visited
      · simp only [if_pos hv]
        exact ih _ _ _ _ h1 h2
      · simp only [if_neg hv]
        have h2' : ∀ f ∈ (if var ∈ fns then insert var reqF else reqF), f ∈ fns := by
          intro f hf
          by_cases hfn : var ∈ fns
          · rw [if_pos hfn] at hf
            rcases Finset.mem_insert.mp hf with h | h
            · subst h; exact hfn
            · exact h2 f h
          · rw [if_neg hfn] at hf
            exact h2 f hf
        rcases hw : var_to_cell cells var with _ | idx
        · exact ih _ _ _ _ h1 h2'
        · refine ih _ _ _ _ ?_ h2'
          intro i hi
          rcases Finset.mem_insert.mp hi with h | h
          · subst h; exact var_to_cell_lt hw
          · exact h1 i h

/-- If no queued variable has a writer cell, the loop never adds a cell
index. -/
lemma resolveLoop_none (cells : List MarimoCell) (fns : List String) :
    ∀ (fuel : Nat) (queue visited : List String) (req : Finset Nat) (reqF : Finset String),
      (∀ v ∈ queue, var_to_cell cells v = none) →
      (resolveLoop cells fns fuel queue visited req reqF).1 = req := by
  intro fuel
  induction fuel with
  | zero => intro queue visited req reqF _; rfl
  | succ fuel ih =>
    intro queue visited req reqF hq0
    rcases hq : queue.getLast? with _ | var
    · simp only [resolveLoop, hq]
    · obtain ⟨rest, rfl⟩ : ∃ rest, queue = rest ++ [var] :=
        ⟨queue.dropLast, queue_eq_dropLast_append hq⟩
      have hdrop : (rest ++ [var]).dropLast = rest := by simp
      have hrest : ∀ v ∈ rest, var_to_cell cells v = none :=
        fun v hv => hq0 v (List.mem_append_left _ hv)
      simp only [resolveLoop, hq, hdrop]
      by_cases hv : var ∈ visited
      · simp only [if_pos hv]
        exact ih _ _ _ _ hrest
      · simp only [if_neg hv]
        rw [hq0 var (by simp)]
        exact ih _ _ _ _ hrest

lemma unvisitedCount_nil (A : List String) : unvisitedCount A [] = A.length := by
  unfold unvisitedCount
  simp

/-- The closure postcondition carried over to `get_required_cells`. -/
lemma get_required_cells_post (parsed : ParsedNotebook) (target_vars : List String) :
    (∀ t ∈ target_vars, ∀ i, var_to_cell parsed.cells t = some i →
        i ∈ (get_required_cells parsed target_vars).1) ∧
    (∀ i ∈ (get_required_cells parsed target_vars).1,
        ∀ r ∈ (cellAt parsed.cells i).refs, ∀ j, var_to_cell parsed.cells r = some j →
          j ∈ (get_required_cells parsed target_vars).1) := by
  have hA : ∀ idx, idx < parsed.cells.length →
      ∀ r ∈ (cellAt parsed.cells idx).refs,
        r ∈ target_vars ++ (parsed.cells.map MarimoCell.refs).flatten :=
    fun idx hidx r hr => List.mem_append_right _ (ref_mem_flatten hidx hr)
  have hpost := resolveLoop_post parsed.cells (parsed.functions.map MarimoFunction.name)
    target_vars (target_vars ++ (parsed.cells.map MarimoCell.refs).flatten) hA
    ((target_vars ++ (parsed.cells.map MarimoCell.refs).flatten).length *
      (refsTotal parsed.cells + 1) + target_vars.length + 1)
    target_vars [] ∅ ∅
    (fun v hv => List.mem_append_left _ hv)
    (by rw [unvisitedCount_nil]
        exact Nat.lt_succ_self _)
    (fun t ht => Or.inr ht)
    (by simp)
    (by simp)
  have hmem : ∀ i, i ∈ (get_required_cells parsed target_vars).1 ↔
      i ∈ (resolveLoop parsed.cells (parsed.functions.map MarimoFunction.name)
        ((target_vars ++ (parsed.cells.map MarimoCell.refs).flatten).length *
          (refsTotal parsed.cells + 1) + target_vars.length + 1)
        target_vars [] ∅ ∅).1 := by
    intro i
    simp only [get_required_cells]
    exact Finset.mem_sort _
  constructor
  · intro t ht i hw
    exact (hmem i).mpr (hpost.1 t ht i hw)
  · intro i hi r hr j hw
    exact (hmem j).mpr (hpost.2 i ((hmem i).mp hi) r hr j hw)

/-- C1: for every parsed notebook and non-empty target list, the indices
returned by `get_required_cells` contain each target's writer cell and,
transitively, the writer cell of every variable read by any included
cell; and the returned index sequence is sorted strictly ascending. -/
theorem get_required_cells_transitive_closure_sorted
    (parsed : ParsedNotebook) (target_vars : List String) (hne : target_vars ≠ []) :
    (∀ t ∈ target_vars, ∀ i, var_to_cell parsed.cells t = some i →
        i ∈ (get_required_cells parsed target_vars).1) ∧
    (∀ i ∈ (get_required_cells parsed target_vars).1,
        ∀ r ∈ (cellAt parsed.cells i).refs, ∀ j, var_to_cell parsed.cells r = some j →
          j ∈ (get_required_cells parsed target_vars).1) ∧
    List.Sorted (· < ·) (get_required_cells parsed target_vars).1 := by
  obtain ⟨h1, h2⟩ := get_required_cells_post parsed target_vars
  refine ⟨h1, h2, ?_⟩
  simp only [get_required_cells]
  exact Finset.sort_sorted_lt _

/-- C10: every returned cell index is a valid index into the notebook's
cell list, and every returned function name names a parsed
`@app.function`. -/
theorem get_required_cells_wellformed (parsed : ParsedNotebook) (target_vars : List String) :
    (∀ i ∈ (get_required_cells parsed target_vars).1, i < parsed.cells.length) ∧
    (∀ f ∈ (get_required_cells parsed target_vars).2,
        f ∈ parsed.functions.map MarimoFunction.name) := by
  have hwf := resolveLoop_wf parsed.cells (parsed.functions.map MarimoFunction.name)
    ((target_vars ++ (parsed.cells.map MarimoCell.refs).flatten).length *
      (refsTotal parsed.cells + 1) + target_vars.length + 1)
    target_vars [] ∅ ∅ (by simp) (by simp)
  constructor
  · intro i hi
    refine hwf.1 i ?_
    have : i ∈ (get_required_cells parsed target_vars).1 := hi
    simp only [get_required_cells] at this
    exact (Finset.mem_sort _).mp this
  · intro f hf
    simp only [get_required_cells] at hf
    rcases Finset.mem_union.mp hf with h | h
    · exact hwf.2 f h
    · exact List.mem_of_mem_filter (List.mem_toFinset.mp h)

lemma substr_pyReprItems {t : String} :
    ∀ {l : List String}, t ∈ l → t.data <:+: pyReprItemsChars l := by
  intro l
  induction l with
  | nil => intro h; simp at h
  | cons s rest ih =>
    intro h
    rcases List.mem_cons.mp h with h | h
    · subst h
      cases rest with
      | nil => exact ⟨[apos], [apos], by simp [pyReprItemsChars]⟩
      | cons s' r' =>
        exact ⟨[apos], apos :: ',' :: ' ' :: pyReprItemsChars (s' :: r'),
          by simp [pyReprItemsChars]⟩
    · cases rest with
      | nil => simp at h
      | cons s' r' =>
        refine (ih h).trans ?_
        exact ⟨apos :: (s.data ++ [apos, ',', ' ']), [],
          by simp [pyReprItemsChars]⟩

/-- Each unresolved target name occurs verbatim inside the error
message of `prepare_notebook`. -/
lemma substr_unresolvedMsg {t : String} {l : List String} (h : t ∈ l) :
    Substr t (unresolvedMsg l) := by
  unfold Substr unresolvedMsg pyStrListRepr
  rw [String.data_append]
  refine (substr_pyReprItems h).trans ?_
  exact ⟨"Could not find cells defining: ".data ++ ['['], [']'], by simp⟩

/-- C2: if no requested variable is written by any cell,
`prepare_notebook` fails with the unresolved-target message (which names
every requested variable); a successful result never has an empty
`required_indices`; and if at least one requested variable has a writer
cell, a successful `PreparedNotebook` is returned. -/
theorem prepare_notebook_unresolved_vs_success
    (parsed : ParsedNotebook) (target_vars : List String) (hne : target_vars ≠ []) :
    ((∀ t ∈ target_vars, var_to_cell parsed.cells t = none) →
        prepare_notebook parsed target_vars = Except.error (unresolvedMsg target_vars) ∧
        ∀ t ∈ target_vars, Substr t (unresolvedMsg target_vars)) ∧
    (∀ p, prepare_notebook parsed target_vars = Except.ok p →
        p.required_indices ≠ []) ∧
    ((∃ t ∈ target_vars, ∃ i, var_to_cell parsed.cells t = some i) →
        ∃ p, prepare_notebook parsed target_vars = Except.ok p) := by
  refine ⟨?_, ?_, ?_⟩
  · intro hall
    have hnone := resolveLoop_none parsed.cells (parsed.functions.map MarimoFunction.name)
      ((target_vars ++ (parsed.cells.map MarimoCell.refs).flatten).length *
        (refsTotal parsed.cells + 1) + target_vars.length + 1)
      target_vars [] ∅ ∅ (fun v hv => hall v hv)
    have hempty : (get_required_cells parsed target_vars).1 = [] := by
      simp only [get_required_cells, hnone]
      exact Finset.sort_empty (· ≤ ·)
    constructor
    · simp only [prepare_notebook, hempty]
      rfl
    · exact fun t ht => substr_unresolvedMsg ht
  · intro p hp
    simp only [prepare_notebook] at hp
    by_cases hemp : (get_required_cells parsed target_vars).1.isEmpty
    · rw [if_pos hemp] at hp
      cases hp
    · rw [if_neg hemp] at hp
      cases hp
      intro hnil
      have hnil' : (get_required_cells parsed target_vars).1 = [] := hnil
      exact hemp (by rw [hnil']; rfl)
  · rintro ⟨t, ht, i, hw⟩
    have hmem := (get_required_cells_post parsed target_vars).1 t ht i hw
    have hnonnil : (get_required_cells parsed target_vars).1 ≠ [] :=
      List.ne_nil_of_mem hmem
    have hemp : (get_required_cells parsed target_vars).1.isEmpty = false := by
      cases hl : (get_required_cells parsed target_vars).1 with
      | nil => exact absurd hl hnonnil
      | cons a as => rfl
    refine ⟨⟨parsed, (get_required_cells parsed target_vars).1,
      (get_required_cells parsed target_vars).2, target_vars.head?⟩, ?_⟩
    simp only [prepare_notebook, hemp]
    rfl

/-- Witness for C1: the closure theorem applied to the concrete example
notebook and target `clean_df`. -/
theorem get_required_cells_transitive_closure_sorted_witness :
    (["clean_df"] : List String) ≠ [] ∧
    ((∀ t ∈ (["clean_df"] : List String), ∀ i, var_to_cell exNB.cells t = some i →
        i ∈ (get_required_cells exNB ["clean_df"]).1) ∧
     (∀ i ∈ (get_required_cells exNB ["clean_df"]).1,
        ∀ r ∈ (cellAt exNB.cells i).refs, ∀ j, var_to_cell exNB.cells r = some j →
          j ∈ (get_required_cells exNB ["clean_df"]).1) ∧
     List.Sorted (· < ·) (get_required_cells exNB ["clean_df"]).1) :=
  ⟨by decide, get_required_cells_transitive_closure_sorted exNB ["clean_df"] (by decide)⟩

/-- Witness for C2: the resolution theorem applied to the concrete
example notebook and the unwritten target `nope`. -/
theorem prepare_notebook_unresolved_vs_success_witness :
    (["nope"] : List String) ≠ [] ∧
    (((∀ t ∈ (["nope"] : List String), var_to_cell exNB.cells t = none) →
        prepare_notebook exNB ["nope"] = Except.error (unresolvedMsg ["nope"]) ∧
        ∀ t ∈ (["nope"] : List String), Substr t (unresolvedMsg ["nope"])) ∧
     (∀ p, prepare_notebook exNB ["nope"] = Except.ok p → p.required_indices ≠ []) ∧
     ((∃ t ∈ (["nope"] : List String), ∃ i, var_to_cell exNB.cells t = some i) →
        ∃ p, prepare_notebook exNB ["nope"] = Except.ok p)) :=
  ⟨by decide, prepare_notebook_unresolved_vs_success exNB ["nope"] (by decide)⟩

lemma stripDropLine_eq_spec (s : List (String × String)) (line : String) :
    stripDropLine s line = specImportDropped s line := by
  unfold stripDropLine specImportDropped
  cases h : (pyStartsWith (pyStrip line) "import " || pyStartsWith (pyStrip line) "from ")
  · simp [h]
  · simp [h, Bool.and_comm]

lemma foldl_keep_eq_filter {α : Type _} (p : α → Bool) :
    ∀ (l : List α) (acc : List α),
      l.foldl (fun acc x => if p x then acc else acc ++ [x]) acc
        = acc ++ l.filter (fun x => !p x) := by
  intro l
  induction l with
  | nil => intro acc; simp
  | cons x xs ih =>
    intro acc
    rw [List.foldl_cons]
    cases hp : p x
    · rw [if_neg (by simp [hp]), ih, List.filter_cons]
      simp [hp, List.append_assoc]
    · rw [if_pos (by simp [hp]), ih, List.filter_cons]
      simp [hp]

lemma strip_eq_filter (a : String) (s : List (String × String)) :
    strip_imports_from_action_code a s
      = joinStrings ((pySplitlinesKE a).filter (fun l => !stripDropLine s l)) := by
  show joinStrings ((pySplitlinesKE a).foldl
      (fun acc line => if stripDropLine s line then acc else acc ++ [line]) []) = _
  rw [foldl_keep_eq_filter]
  simp

/-- C4: `strip_imports_from_action_code` drops a line exactly when its
stripped text is an import statement whose bound-name set is non-empty
and entirely contained in the binding map's keys; every other line (one
that imports at least one new name, and every non-import line) is
retained verbatim, which the filter characterisation expresses. -/
theorem strip_imports_drops_exactly_redundant (action_code : String)
    (setup_imports : List (String × String)) :
    strip_imports_from_action_code action_code setup_imports
      = joinStrings ((pySplitlinesKE action_code).filter
          (fun l => !specImportDropped setup_imports l)) := by
  rw [strip_eq_filter]
  congr 1
  apply List.filter_congr
  intro l _
  rw [stripDropLine_eq_spec]

lemma splitLinesKE_cons_nl (cs : List Char) :
    splitLinesKE ('\n' :: cs) = ['\n'] :: splitLinesKE cs := by
  rw [splitLinesKE, if_pos rfl]

lemma splitLinesKE_cons_ne (c : Char) (cs : List Char) (hc : c ≠ '\n') :
    splitLinesKE (c :: cs) = (match splitLinesKE cs with
      | [] => [[c]]
      | l :: ls => (c :: l) :: ls) := by
  rw [splitLinesKE, if_neg hc]

lemma dropLast_cons_of_ne {α : Type _} (c : α) {l : List α} (h : l ≠ []) :
    (c :: l).dropLast = c :: l.dropLast := by
  cases l with
  | nil => exact absurd rfl h
  | cons b bs => exact List.dropLast_cons₂

lemma getLast?_cons_of_ne {α : Type _} (c : α) {l : List α} (h : l ≠ []) :
    (c :: l).getLast? = l.getLast? := by
  cases l with
  | nil => exact absurd rfl h
  | cons b bs => exact List.getLast?_cons_cons

lemma linesWF_splitLinesKE : ∀ (cs : List Char), LinesWF (splitLinesKE cs) := by
  intro cs
  induction cs with
  | nil => exact trivial
  | cons c cs ih =>
    by_cases hc : c = '\n'
    · subst hc
      simp only [splitLinesKE, if_pos rfl]
      exact ⟨⟨by simp, by simp⟩, Or.inr (by simp), ih⟩
    · simp only [splitLinesKE, if_neg hc]
      rcases hsp : splitLinesKE cs with _ | ⟨l, ls⟩
      · exact ⟨⟨by simp, by simp [hc]⟩, Or.inl rfl, trivial⟩
      · rw [hsp] at ih
        obtain ⟨⟨hlne, hnl⟩, hend, hrest⟩ := ih
        refine ⟨⟨by simp, ?_⟩, ?_, hrest⟩
        · intro x hx
          rw [dropLast_cons_of_ne c hlne] at hx
          rcases List.mem_cons.mp hx with h | h
          · subst h; exact hc
          · exact hnl x h
        · exact hend.imp id (fun h => by rw [getLast?_cons_of_ne c hlne]; exact h)

lemma splitLinesKE_proper : ∀ {l : List Char}, l ≠ [] → (∀ c ∈ l.dropLast, c ≠ '\n') →
    splitLinesKE l = [l] := by
  intro l
  induction l with
  | nil => intro h _; exact absurd rfl h
  | cons c cs ih =>
    intro _ hnl
    cases cs with
    | nil =>
      by_cases hc : c = '\n'
      · subst hc; simp [splitLinesKE]
      · simp [splitLinesKE, hc]
    | cons b bs =>
      have hc : c ≠ '\n' := hnl c (by
        rw [dropLast_cons_of_ne c (by simp)]
        exact List.mem_cons_self _ _)
      have hrest : splitLinesKE (b :: bs) = [b :: bs] := by
        refine ih (by simp) ?_
        intro x hx
        exact hnl x (by
          rw [dropLast_cons_of_ne c (by simp)]
          exact List.mem_cons_of_mem _ hx)
      rw [splitLinesKE_cons_ne c _ hc, hrest]

lemma splitLinesKE_append_line : ∀ {l : List Char}, l ≠ [] →
    (∀ c ∈ l.dropLast, c ≠ '\n') → l.getLast? = some '\n' → ∀ (rest : List Char),
    splitLinesKE (l ++ rest) = l :: splitLinesKE rest := by
  intro l
  induction l with
  | nil => intro h _ _; exact absurd rfl h
  | cons c cs ih =>
    intro _ hnl hlast rest
    cases cs with
    | nil =>
      have hc : c = '\n' := by simpa using hlast
      subst hc
      simp [splitLinesKE]
    | cons b bs =>
      have hc : c ≠ '\n' := hnl c (by
        rw [dropLast_cons_of_ne c (by simp)]
        exact List.mem_cons_self _ _)
      have hlast' : (b :: bs).getLast? = some '\n' := by
        rw [← getLast?_cons_of_ne c (by simp)]
        exact hlast
      have hrest := ih (by simp)
        (fun x hx => hnl x (by
          rw [dropLast_cons_of_ne c (by simp)]
          exact List.mem_cons_of_mem _ hx)) hlast' rest
      rw [List.cons_append, splitLinesKE_cons_ne c _ hc, hrest]

lemma splitLinesKE_flatten : ∀ {ls : List (List Char)}, LinesWF ls →
    splitLinesKE ls.flatten = ls := by
  intro ls
  induction ls with
  | nil => intro _; simp [splitLinesKE]
  | cons l ls ih =>
    intro hwf
    obtain ⟨⟨hne, hnl⟩, hend, hrest⟩ := hwf
    rcases hend with hend | hend
    · subst hend
      simp only [List.flatten_cons, List.flatten_nil, List.append_nil]
      exact splitLinesKE_proper hne hnl
    · rw [List.flatten_cons, splitLinesKE_append_line hne hnl hend, ih hrest]

lemma linesWF_filter (p : List Char → Bool) : ∀ {ls : List (List Char)}, LinesWF ls →
    LinesWF (ls.filter p) := by
  intro ls
  induction ls with
  | nil => intro _; exact trivial
  | cons l ls ih =>
    intro hwf
    obtain ⟨hprop, hend, hrest⟩ := hwf
    rw [List.filter_cons]
    by_cases hp : p l = true
    · rw [if_pos hp]
      refine ⟨hprop, ?_, ih hrest⟩
      rcases hend with hend | hend
      · subst hend; exact Or.inl rfl
      · exact Or.inr hend
    · rw [if_neg hp]
      exact ih hrest

lemma foldl_append_data : ∀ (ls : List String) (acc : String),
    (ls.foldl (fun r s => r ++ s) acc).data = acc.data ++ (ls.map String.data).flatten := by
  intro ls
  induction ls with
  | nil => intro acc; simp
  | cons s ss ih =>
    intro acc
    rw [List.foldl_cons, ih, String.data_append]
    simp [List.append_assoc]

lemma joinStrings_data (ls : List String) :
    (joinStrings ls).data = (ls.map String.data).flatten := by
  have h := foldl_append_data ls ""
  simpa [joinStrings, String.join] using h

/-- The lines of the stripped action code are exactly the kept lines. -/
lemma pySplitlinesKE_strip (a : String) (s : List (String × String)) :
    pySplitlinesKE (strip_imports_from_action_code a s)
      = (pySplitlinesKE a).filter (fun l => !stripDropLine s l) := by
  rw [strip_eq_filter]
  unfold pySplitlinesKE
  rw [List.filter_map]
  have hdata : (joinStrings (((splitLinesKE a.data).filter
      ((fun l => !stripDropLine s l) ∘ String.mk)).map String.mk)).data
      = ((splitLinesKE a.data).filter ((fun l => !stripDropLine s l) ∘ String.mk)).flatten := by
    rw [joinStrings_data, List.map_map]
    congr 1
    apply List.map_id''
    intro cl
    rfl
  rw [hdata, splitLinesKE_flatten (linesWF_filter _ (linesWF_splitLinesKE _))]

/-- C9: the output of `strip_imports_from_action_code` consists of a
sublist of the input's lines — no line is added, modified or reordered —
and every line whose stripped text does not start with `import ` or
`from ` is always retained verbatim. -/
theorem strip_imports_output_sublist_of_input (action_code : String)
    (setup_imports : List (String × String)) :
    List.Sublist
      (pySplitlinesKE (strip_imports_from_action_code action_code setup_imports))
      (pySplitlinesKE action_code) ∧
    (∀ l ∈ pySplitlinesKE action_code,
      pyStartsWith (pyStrip l) "import " = false →
      pyStartsWith (pyStrip l) "from " = false →
        l ∈ pySplitlinesKE (strip_imports_from_action_code action_code setup_imports)) := by
  constructor
  · rw [pySplitlinesKE_strip]
    exact List.filter_sublist _
  · intro l hl h1 h2
    rw [pySplitlinesKE_strip]
    refine List.mem_filter.mpr ⟨hl, ?_⟩
    simp [stripDropLine, h1, h2]

lemma isPrefixOf_decomp {α : Type _} [BEq α] [LawfulBEq α] :
    ∀ {l₁ l₂ : List α}, l₁.isPrefixOf l₂ = true → l₂ = l₁ ++ l₂.drop l₁.length := by
  intro l₁
  induction l₁ with
  | nil => intro l₂ _; simp
  | cons a as ih =>
    intro l₂ h
    cases l₂ with
    | nil => simp [List.isPrefixOf] at h
    | cons b bs =>
      simp only [List.isPrefixOf, Bool.and_eq_true, beq_iff_eq] at h
      obtain ⟨hab, hrest⟩ := h
      subst hab
      rw [List.length_cons, List.drop_succ_cons, List.cons_append]
      exact congrArg (a :: ·) (ih hrest)

lemma matchShowAt_decomp {cs ind sc rest : List Char}
    (h : matchShowAt cs = some (ind, sc, rest)) :
    cs = ind ++ sc ++ rest ∧ sc ≠ [] := by
  simp only [matchShowAt] at h
  by_cases h1 : pltShowChars.isPrefixOf (cs.dropWhile isPySpace) = true
  · rw [if_pos h1] at h
    simp only [Option.some.injEq, Prod.mk.injEq] at h
    obtain ⟨hi, hs, hr⟩ := h
    subst hi; subst hs; subst hr
    constructor
    · conv_lhs => rw [← List.takeWhile_append_dropWhile (p := isPySpace) (l := cs)]
      rw [List.append_assoc]
      exact congrArg (_ ++ ·) (isPrefixOf_decomp h1)
    · decide
  · rw [if_neg h1] at h
    by_cases h2 : pyplotShowChars.isPrefixOf (cs.dropWhile isPySpace) = true
    · rw [if_pos h2] at h
      simp only [Option.some.injEq, Prod.mk.injEq] at h
      obtain ⟨hi, hs, hr⟩ := h
      subst hi; subst hs; subst hr
      constructor
      · conv_lhs => rw [← List.takeWhile_append_dropWhile (p := isPySpace) (l := cs)]
        rw [List.append_assoc]
        exact congrArg (_ ++ ·) (isPrefixOf_decomp h2)
      · decide
    · rw [if_neg h2] at h
      simp at h

lemma findShowMatch_decomp : ∀ (cs : List Char) (ls : Bool) {pre ind sc rest : List Char},
    findShowMatch cs ls = some (pre, ind, sc, rest) →
    cs = pre ++ ind ++ sc ++ rest ∧ sc ≠ [] := by
  intro cs
  induction cs with
  | nil => intro ls pre ind sc rest h; simp [findShowMatch] at h
  | cons c cs ih =>
    intro ls pre ind sc rest h
    simp only [findShowMatch] at h
    cases ls with
    | false =>
      rw [if_neg (by simp)] at h
      rcases hf : findShowMatch cs (c = '\n') with _ | ⟨p, i, s, r⟩ <;> rw [hf] at h
      · simp at h
      · simp only [Option.some.injEq, Prod.mk.injEq] at h
        obtain ⟨h1, h2, h3, h4⟩ := h
        subst h1; subst h2; subst h3; subst h4
        obtain ⟨hdec, hne⟩ := ih (c = '\n') hf
        exact ⟨by simp [hdec], hne⟩
    | true =>
      rw [if_pos rfl] at h
      rcases hm : matchShowAt (c :: cs) with _ | ⟨i, s, r⟩ <;> rw [hm] at h
      · rcases hf : findShowMatch cs (c = '\n') with _ | ⟨p, i, s, r⟩ <;> rw [hf] at h
        · simp at h
        · simp only [Option.some.injEq, Prod.mk.injEq] at h
          obtain ⟨h1, h2, h3, h4⟩ := h
          subst h1; subst h2; subst h3; subst h4
          obtain ⟨hdec, hne⟩ := ih (c = '\n') hf
          exact ⟨by simp [hdec], hne⟩
      · simp only [Option.some.injEq, Prod.mk.injEq] at h
        obtain ⟨h1, h2, h3, h4⟩ := h
        subst h1; subst h2; subst h3; subst h4
        obtain ⟨hdec, hne⟩ := matchShowAt_decomp hm
        exact ⟨by simpa using hdec, hne⟩

lemma subShowAux_of_none {save cs : List Char} {ls : Bool}
    (h : findShowMatch cs ls = none) : ∀ fuel, subShowAux save fuel cs ls = cs := by
  intro fuel
  cases fuel with
  | zero => rfl
  | succ f => simp only [subShowAux, h]

lemma savefigLine_data (p : String) :
    (savefigLine p).data = "plt.savefig('".data ++ p.data
      ++ "', dpi=150, bbox_inches='tight')".data := by
  unfold savefigLine
  rw [String.data_append, String.data_append]

/-- C5 (amended): on a script whose scan finds exactly one blocking show
call, one application of `inject_savefig` yields the input with exactly
one savefig statement inserted on the line immediately preceding the
call, at the call's indentation; the second half of the original claim —
idempotence of a second application — is refuted by
the counterexample, because re-scanning the output matches the same
show call again and inserts a duplicate. -/
theorem inject_savefig_single_insertion (script png_path : String)
    (pre indent sc rest : List Char)
    (hfind : findShowMatch script.data true = some (pre, indent, sc, rest))
    (hrest : findShowMatch rest false = none) :
    inject_savefig script png_path
      = ⟨pre ++ indent ++ (savefigLine png_path).data ++ ('\n' :: indent) ++ sc ++ rest⟩ ∧
    script.data = pre ++ indent ++ sc ++ rest := by
  obtain ⟨hdec, hscne⟩ := findShowMatch_decomp script.data true hfind
  refine ⟨?_, hdec⟩
  have hpos : 0 < script.data.length := by
    rw [hdec]
    cases sc with
    | nil => exact absurd rfl hscne
    | cons a as => simp [List.length_append]
  obtain ⟨f, hf⟩ : ∃ f, script.data.length = f + 1 := ⟨script.data.length - 1, by omega⟩
  have hsub : subShowAux (savefigLine png_path).data script.data.length script.data true
      = pre ++ indent ++ (savefigLine png_path).data ++ ('\n' :: indent) ++ sc ++ rest := by
    rw [hf]
    simp only [subShowAux, hfind]
    rw [subShowAux_of_none hrest]
  have hsave : 0 < ((savefigLine png_path).data).length := by
    rw [savefigLine_data]
    simp
  have hneq : (⟨subShowAux (savefigLine png_path).data script.data.length script.data true⟩
      : String) ≠ script := by
    intro heq
    have hdata : subShowAux (savefigLine png_path).data script.data.length script.data true
        = script.data := congrArg String.data heq
    rw [hsub, hdec] at hdata
    have hlen := congrArg List.length hdata
    simp only [List.length_append, List.length_cons] at hlen
    omega
  simp only [inject_savefig]
  rw [if_neg hneq]
  exact congrArg String.mk hsub

set_option maxRecDepth 100000 in
/-- Witness for C5's amended theorem at the concrete one-show script. -/
theorem inject_savefig_single_insertion_witness :
    (findShowMatch exShowScript.data true
      = some ("import matplotlib.pyplot as plt\nplt.plot([1, 2, 3])\n".data,
          [], "plt.show()".data, "\n".data)) ∧
    (findShowMatch "\n".data false = none) ∧
    (inject_savefig exShowScript "/tmp/viz/x.png"
      = ⟨"import matplotlib.pyplot as plt\nplt.plot([1, 2, 3])\n".data ++ []
          ++ (savefigLine "/tmp/viz/x.png").data ++ ('\n' :: [])
          ++ "plt.show()".data ++ "\n".data⟩ ∧
     exShowScript.data = "import matplotlib.pyplot as plt\nplt.plot([1, 2, 3])\n".data
          ++ [] ++ "plt.show()".data ++ "\n".data) :=
  ⟨by decide, by decide,
    inject_savefig_single_insertion exShowScript "/tmp/viz/x.png" _ _ _ _
      (by decide) (by decide)⟩

set_option maxRecDepth 100000 in
/-- C5 counterexample: applying `inject_savefig` to its own output
inserts a second savefig statement before the same show call, so after
two passes the text contains two persistence statements — refuting "at
most one persistence statement appears after two passes". -/
theorem inject_savefig_twice_not_idempotent :
    ¬ (countOcc (savefigLine "/tmp/viz/x.png").data
        (inject_savefig (inject_savefig exShowScript "/tmp/viz/x.png")
          "/tmp/viz/x.png").data ≤ 1) := by
  decide

/-- C7: `inject_snapshot` returns the cell code completely unchanged
whenever the target line is strictly below the cell's first line or
strictly beyond its last line (first line + number of code lines - 1). -/
theorem inject_snapshot_noop_outside_span (cell_code target_var : String)
    (target_line cell_start_line : Int)
    (h : target_line < cell_start_line ∨
        target_line > cell_start_line + ((pySplitlinesKE cell_code).length : Int) - 1) :
    inject_snapshot cell_code target_var target_line cell_start_line = cell_code := by
  have h' : target_line - cell_start_line < 0 ∨
      target_line - cell_start_line ≥ ((pySplitlinesKE cell_code).length : Int) := by
    omega
  simp only [inject_snapshot]
  rw [if_pos h']

/-- Witness for C7: a target line far past the three-line example cell. -/
theorem inject_snapshot_noop_outside_span_witness :
    ((99 : Int) < 10 ∨
      (99 : Int) > 10 + ((pySplitlinesKE exCellCode).length : Int) - 1) ∧
    inject_snapshot exCellCode "y" 99 10 = exCellCode :=
  ⟨by decide, inject_snapshot_noop_outside_span exCellCode "y" 99 10 (by decide)⟩

lemma pyStmtSize_pos (s : PyStmt) : 1 ≤ pyStmtSize s := by
  cases s with
  | ret v => simp [pyStmtSize]
  | other body => simp [pyStmtSize]

lemma pyStmtSize_eq_children (s : PyStmt) :
    pyStmtSize s = 1 + pyStmtsSize (stmtChildren s) := by
  cases s <;> simp [pyStmtSize, pyStmtsSize, stmtChildren]

lemma pyStmtsSize_append : ∀ (a b : List PyStmt),
    pyStmtsSize (a ++ b) = pyStmtsSize a + pyStmtsSize b := by
  intro a
  induction a with
  | nil => intro b; simp [pyStmtsSize]
  | cons s ss ih =>
    intro b
    rw [List.cons_append]
    simp only [pyStmtsSize]
    rw [ih]
    omega

lemma pyStmtsSize_eq_zero {q : List PyStmt} (h : pyStmtsSize q = 0) : q = [] := by
  cases q with
  | nil => rfl
  | cons s ss =>
    have := pyStmtSize_pos s
    simp only [pyStmtsSize] at h
    omega

lemma reaches_inv {s x : PyStmt} (h : Reaches s x) :
    x = s ∨ ∃ c ∈ stmtChildren s, Reaches c x := by
  cases h with
  | refl => exact Or.inl rfl
  | step ht hr => exact Or.inr ⟨_, ht, hr⟩

/-- BFS emits exactly the statements reachable from the queue, given
enough fuel. -/
lemma mem_walkStmts : ∀ (fuel : Nat) (q : List PyStmt), pyStmtsSize q ≤ fuel →
    ∀ x, x ∈ walkStmts fuel q ↔ ∃ s ∈ q, Reaches s x := by
  intro fuel
  induction fuel with
  | zero =>
    intro q hq x
    have hnil : q = [] := pyStmtsSize_eq_zero (Nat.le_zero.mp hq)
    subst hnil
    simp [walkStmts]
  | succ fuel ih =>
    intro q hq x
    cases q with
    | nil => simp [walkStmts]
    | cons s rest =>
      have hsz : pyStmtsSize (rest ++ stmtChildren s) ≤ fuel := by
        rw [pyStmtsSize_append]
        have h1 := pyStmtSize_eq_children s
        simp only [pyStmtsSize] at hq
        omega
      simp only [walkStmts]
      constructor
      · intro hx
        rcases List.mem_cons.mp hx with hx | hx
        · subst hx; exact ⟨x, List.mem_cons_self _ _, Reaches.refl _⟩
        · obtain ⟨t, ht, hr⟩ := (ih _ hsz x).mp hx
          rcases List.mem_append.mp ht with ht | ht
          · exact ⟨t, List.mem_cons_of_mem _ ht, hr⟩
          · exact ⟨s, List.mem_cons_self _ _, Reaches.step ht hr⟩
      · rintro ⟨t, ht, hr⟩
        rcases List.mem_cons.mp ht with ht | ht
        · subst ht
          rcases reaches_inv hr with hx | ⟨c, hc, hr'⟩
          · rw [hx]; exact List.mem_cons_self _ _
          · exact List.mem_cons_of_mem _
              ((ih _ hsz x).mpr ⟨c, List.mem_append_right _ hc, hr'⟩)
        · exact List.mem_cons_of_mem _
            ((ih _ hsz x).mpr ⟨t, List.mem_append_left _ ht, hr⟩)

/-- C6 counterexample: with two top-level tuple-valued returns the
parsed writes list holds the names of BOTH returns (`["a", "b"]`) while
the claim's first-return-only reading predicts `["a"]`. -/
theorem parse_cell_defs_not_first_return_only :
    (_parse_cell cexCellNode []).defs = ["a", "b"] ∧
    specFirstTupleReturnNames cexCellNode.body = ["a"] ∧
    (_parse_cell cexCellNode []).defs ≠ specFirstTupleReturnNames cexCellNode.body :=
  ⟨by decide, by decide, by decide⟩

/-- C6 (amended): the writes list produced by `_parse_cell` contains a
name exactly when some tuple-valued return reachable in the cell body
binds it — names from later tuple returns are included as well, not
ignored (the code concatenates every tuple return's names in walk
order). -/
theorem parse_cell_defs_all_tuple_returns (node : PyFunctionDef)
    (source_lines : List String) (n : String) :
    n ∈ (_parse_cell node source_lines).defs ↔
      ∃ s ∈ node.body, ∃ s', Reaches s s' ∧ n ∈ tupleReturnNames s' := by
  simp only [_parse_cell]
  rw [List.mem_flatMap]
  constructor
  · rintro ⟨s', hs', hn⟩
    obtain ⟨s, hs, hr⟩ := (mem_walkStmts _ _ le_rfl s').mp hs'
    exact ⟨s, hs, s', hr, hn⟩
  · rintro ⟨s, hs, s', hr, hn⟩
    exact ⟨s', (mem_walkStmts _ _ le_rfl s').mpr ⟨s, hs, hr⟩, hn⟩

lemma pollLoop_reaches (obs : Nat → ProcObs) (cmd : List String) (t : Nat)
    (stderr : String)
    (hfile : ∀ k, k ≤ t → (obs k).fileExists = false)
    (hrun : ∀ k, k < t → (obs k).exited = none)
    (hexit : (obs t).exited = some stderr) :
    ∀ (fuel k : Nat), k ≤ t → t - k < fuel →
      pollLoop obs cmd fuel k =
        (match format_module_error stderr cmd with
         | some m => { success := false, message := m }
         | none => { success := false, message := "Script failed: " ++ stderr }) := by
  intro fuel
  induction fuel with
  | zero => intro k hk hlt; omega
  | succ fuel ih =>
    intro k hk hlt
    by_cases hkt : k = t
    · subst hkt
      simp only [pollLoop]
      rw [hfile k le_rfl, if_neg (by simp), hexit]
    · have hklt : k < t := lt_of_le_of_ne hk hkt
      simp only [pollLoop]
      rw [hfile k (le_of_lt hklt), if_neg (by simp), hrun k hklt]
      exact ih (k + 1) hklt (by omega)

lemma substr_module_in_msg (m : String) (cmd : List String) :
    Substr m (missingModuleMsg m cmd) := by
  show m.data <:+: (missingModuleMsg m cmd).data
  refine ⟨msgHead.data,
    List.replicate (59 - m.data.length) ' ' ++ msgMid.data
      ++ (String.intercalate " " cmd).data
      ++ List.replicate (57 - (String.intercalate " " cmd).data.length) ' '
      ++ msgTail.data, ?_⟩
  simp [missingModuleMsg, padRight, String.data_append, List.append_assoc]

lemma substr_cmd_in_msg (m : String) (cmd : List String) :
    Substr (String.intercalate " " cmd) (missingModuleMsg m cmd) := by
  show (String.intercalate " " cmd).data <:+: (missingModuleMsg m cmd).data
  refine ⟨msgHead.data ++ m.data ++ List.replicate (59 - m.data.length) ' '
      ++ msgMid.data,
    List.replicate (57 - (String.intercalate " " cmd).data.length) ' '
      ++ msgTail.data, ?_⟩
  simp [missingModuleMsg, padRight, String.data_append, List.append_assoc]

lemma missingModuleMsg_head (m : String) (cmd : List String) :
    (missingModuleMsg m cmd).data.head? = some '\n' := by
  unfold missingModuleMsg
  rw [String.data_append, String.data_append, String.data_append, String.data_append]
  rfl

lemma missingModuleMsg_ne_generic (m : String) (cmd : List String) (stderr : String) :
    missingModuleMsg m cmd ≠ "Script failed: " ++ stderr := by
  intro h
  have hd : (missingModuleMsg m cmd).data.head? = ("Script failed: " ++ stderr).data.head? :=
    congrArg (fun s => s.data.head?) h
  rw [missingModuleMsg_head] at hd
  rw [String.data_append] at hd
  simp at hd

/-- C8: when the process is observed to have exited (at tick `t`) before
the artifact appears, the polling loop classifies its stderr: the
`ModuleNotFoundError: No module named 'foo'` signature yields the boxed
missing-dependency message naming the module and the resolved
interpreter command — distinct from the generic failure message — while
any stderr without the signature yields the generic message carrying the
raw stderr. -/
theorem poll_for_file_classifies_exit (obs : Nat → ProcObs) (maxTicks t : Nat)
    (python_cmd : List String) (stderr : String)
    (ht : t < maxTicks)
    (hfile : ∀ k, k ≤ t → (obs k).fileExists = false)
    (hrun : ∀ k, k < t → (obs k).exited = none)
    (hexit : (obs t).exited = some stderr) :
    (∀ m, findModuleName stderr.data = some m →
        poll_for_file obs maxTicks python_cmd =
          { success := false, message := missingModuleMsg m python_cmd } ∧
        Substr m (missingModuleMsg m python_cmd) ∧
        Substr (String.intercalate " " python_cmd) (missingModuleMsg m python_cmd) ∧
        missingModuleMsg m python_cmd ≠ "Script failed: " ++ stderr) ∧
    (findModuleName stderr.data = none →
        poll_for_file obs maxTicks python_cmd =
          { success := false, message := "Script failed: " ++ stderr }) := by
  have hloop := pollLoop_reaches obs python_cmd t stderr hfile hrun hexit maxTicks 0
    (by omega) (by omega)
  constructor
  · intro m hm
    refine ⟨?_, substr_module_in_msg m python_cmd, substr_cmd_in_msg m python_cmd,
      missingModuleMsg_ne_generic m python_cmd stderr⟩
    unfold poll_for_file
    rw [hloop]
    simp [format_module_error, hm]
  · intro hm
    unfold poll_for_file
    rw [hloop]
    simp [format_module_error, hm]

/-- Concrete observation trace for the C8 witness: running at tick 0,
exited with a ModuleNotFoundError at tick 1, artifact never created. -/
def exObs : Nat → ProcObs := fun k =>
  if k = 0 then { fileExists := false, exited := none }
  else { fileExists := false, exited := some "ModuleNotFoundError: No module named 'foo'" }

/-- Witness for C8 on the concrete trace (module `foo`, command
`uv run python`, 15-tick budget, exit observed at tick 1). -/
theorem poll_for_file_classifies_exit_witness :
    ((1 : Nat) < 15 ∧ (∀ k, k ≤ 1 → (exObs k).fileExists = false) ∧
     (∀ k, k < 1 → (exObs k).exited = none) ∧
     (exObs 1).exited = some "ModuleNotFoundError: No module named 'foo'") ∧
    ((∀ m, findModuleName "ModuleNotFoundError: No module named 'foo'".data = some m →
        poll_for_file exObs 15 ["uv", "run", "python"] =
          { success := false, message := missingModuleMsg m ["uv", "run", "python"] } ∧
        Substr m (missingModuleMsg m ["uv", "run", "python"]) ∧
        Substr (String.intercalate " " ["uv", "run", "python"])
          (missingModuleMsg m ["uv", "run", "python"]) ∧
        missingModuleMsg m ["uv", "run", "python"]
          ≠ "Script failed: " ++ "ModuleNotFoundError: No module named 'foo'") ∧
     (findModuleName "ModuleNotFoundError: No module named 'foo'".data = none →
        poll_for_file exObs 15 ["uv", "run", "python"] =
          { success := false,
            message := "Script failed: " ++ "ModuleNotFoundError: No module named 'foo'" })) :=
  ⟨⟨by decide, by decide, by decide, by decide⟩,
    poll_for_file_classifies_exit exObs 15 1 ["uv", "run", "python"]
      "ModuleNotFoundError: No module named 'foo'"
      (by decide) (by decide) (by decide) (by decide)⟩

lemma optStrTruthy_none : optStrTruthy none = false := rfl

set_option maxRecDepth 100000 in
/-- C3: for any four-cell notebook with required indices `[0, 2]`, the
assembled text decomposes around cell 0's code and cell 2's code in that
order (so it contains both, cell 0's occurrence first); and on the
concrete notebook with pairwise-distinct cell codes it contains neither
cell 1's nor cell 3's code — the assembly holds exactly the required
cells' codes, in ascending index order. -/
theorem assemble_retains_exactly_required_cells :
    (∀ (parsed : ParsedNotebook) (reqF : Finset String) (plot_code : String)
        (c0 c1 c2 c3 : MarimoCell),
      parsed.cells = [c0, c1, c2, c3] →
      ∃ A B C : List Char,
        (assemble_pruned_notebook parsed [0, 2] reqF plot_code none none).data
          = A ++ c0.code.data ++ B ++ c2.code.data ++ C) ∧
    (Substr (cellAt cexAsmNB.cells 0).code asmOut ∧
     Substr (cellAt cexAsmNB.cells 2).code asmOut ∧
     ¬ Substr (cellAt cexAsmNB.cells 1).code asmOut ∧
     ¬ Substr (cellAt cexAsmNB.cells 3).code asmOut) := by
  constructor
  · intro parsed reqF plot_code c0 c1 c2 c3 hcells
    refine ⟨(parsed.preamble ++ asmSetupPart parsed.setup_code
        ++ asmClassesPart parsed.classes
        ++ asmFunctionsPart parsed.functions reqF).data ++ ['\n'],
      ['\n', '\n'],
      ['\n'] ++ (asmPlotCell (if parsed.setup_code ≠ "" then
          strip_imports_from_action_code plot_code (extract_setup_imports parsed.setup_code)
        else plot_code) none none).data
        ++ (asmMainPart parsed.main_block).data, ?_⟩
    have hcp : (asmCellsPart parsed.cells [0, 2] none none).data
        = ['\n'] ++ c0.code.data ++ ['\n'] ++ (['\n'] ++ c2.code.data ++ ['\n']) := by
      rw [hcells]
      simp [asmCellsPart, cellAt, joinStrings_data, String.data_append,
        optStrTruthy, optIntTruthy]
    simp only [assemble_pruned_notebook, String.data_append, hcp]
    simp [List.append_assoc, String.data_append]
  · exact ⟨by decide, by decide, by decide, by decide⟩

end VizRunner
